import Mathlib

/-
Verification of the FlowBatchPilot queue-orchestration core.

The embedding below translates the content script (src/unnamed/part_000,
class FlowBatchContentScript), the background download handler and
sanitizeFilename (src/launcher.js), and the popup's startQueue/saveState
(src/popup.js) into Lean.

Modelling conventions, fixed once here:
- The persisted record flowBatchQueueState is a JS object; fields that are
  absent are read back through falsy defaults at every use site in the
  source (pendingTasks via a disjunction with 0, booleans via truthiness),
  so QueueState carries total fields with those defaults.
- pendingTasks is an Int: the source clamps decrements with a max against 0,
  which is only meaningful if the unclamped value could go below 0.
- updateQueueState merges a partial object into the current state
  (spread of current, then spread of updates) and persists the result; each
  such merge is modelled as one atomic read-modify-write step on the store.
  The loads that callers perform BEFORE calling updateQueueState are
  modelled as separate atomic events, exactly as in the source.
- The run-wide mode fields (flowMode, cropMode) are carried by no claim and
  are omitted from the record; they are set once at start and never read by
  the scheduling logic under verification.
-/

namespace FlowBatch

/-- CONFIG.QUEUE_LIMIT (part_000 line 16): the concurrency cap. -/
def QUEUE_LIMIT : Int := 4

/-- The persisted queue state, flowBatchQueueState.  Field defaults are the
falsy defaults the source applies when a field is missing.  queueId is
written only by the popup's initial saveState (popup.js line 738); the
content script's merges never touch it. -/
structure QueueState where
  totalTasks : Nat := 0
  currentIndex : Nat := 0
  running : Bool := false
  paused : Bool := false
  successCount : Nat := 0
  failCount : Nat := 0
  pendingTasks : Int := 0
  queueId : Option Nat := none
  createdAt : Nat := 0
  deriving Repr, DecidableEq

/-- A partial update object passed to updateQueueState: a field that is
`none` is absent from the JS object literal and survives the merge. -/
structure QueueUpdate where
  totalTasks : Option Nat := none
  currentIndex : Option Nat := none
  running : Option Bool := none
  paused : Option Bool := none
  successCount : Option Nat := none
  failCount : Option Nat := none
  pendingTasks : Option Int := none
  createdAt : Option Nat := none
  deriving Repr, DecidableEq

/-- The merge performed inside updateQueueState (part_000 line 2175):
spread of the current state, then spread of the updates. -/
def applyUpdate (s : QueueState) (u : QueueUpdate) : QueueState where
  totalTasks := u.totalTasks.getD s.totalTasks
  currentIndex := u.currentIndex.getD s.currentIndex
  running := u.running.getD s.running
  paused := u.paused.getD s.paused
  successCount := u.successCount.getD s.successCount
  failCount := u.failCount.getD s.failCount
  pendingTasks := u.pendingTasks.getD s.pendingTasks
  queueId := s.queueId
  createdAt := u.createdAt.getD s.createdAt

/-- The durable store slot for flowBatchQueueState; `none` is absence
(after clear, or before any run). -/
def Store : Type := Option QueueState

instance : DecidableEq Store := by unfold Store; infer_instance

instance : Repr Store := by unfold Store; infer_instance

/-- updateQueueState (part_000 lines 2166-2194): loads the current state
(an absent record merges as the empty object, whose missing fields read
back through the falsy defaults), merges, persists.  The result is always
present. -/
def updateStore (st : Store) (u : QueueUpdate) : Store :=
  some (applyUpdate ((st : Option QueueState).getD {}) u)

@[simp] theorem applyUpdate_totalTasks (s : QueueState) (u : QueueUpdate) :
    (applyUpdate s u).totalTasks = u.totalTasks.getD s.totalTasks := rfl

@[simp] theorem applyUpdate_currentIndex (s : QueueState) (u : QueueUpdate) :
    (applyUpdate s u).currentIndex = u.currentIndex.getD s.currentIndex := rfl

@[simp] theorem applyUpdate_running (s : QueueState) (u : QueueUpdate) :
    (applyUpdate s u).running = u.running.getD s.running := rfl

@[simp] theorem applyUpdate_paused (s : QueueState) (u : QueueUpdate) :
    (applyUpdate s u).paused = u.paused.getD s.paused := rfl

@[simp] theorem applyUpdate_successCount (s : QueueState) (u : QueueUpdate) :
    (applyUpdate s u).successCount = u.successCount.getD s.successCount := rfl

@[simp] theorem applyUpdate_failCount (s : QueueState) (u : QueueUpdate) :
    (applyUpdate s u).failCount = u.failCount.getD s.failCount := rfl

@[simp] theorem applyUpdate_pendingTasks (s : QueueState) (u : QueueUpdate) :
    (applyUpdate s u).pendingTasks = u.pendingTasks.getD s.pendingTasks := rfl

@[simp] theorem applyUpdate_queueId (s : QueueState) (u : QueueUpdate) :
    (applyUpdate s u).queueId = s.queueId := rfl

@[simp] theorem applyUpdate_createdAt (s : QueueState) (u : QueueUpdate) :
    (applyUpdate s u).createdAt = u.createdAt.getD s.createdAt := rfl

/-
Caller-level read-modify-write protocol on pendingTasks (claim C1).

Every caller that changes pendingTasks by one does it the same way in the
source: it first awaits loadQueueState (part_000 lines 474, 493, 1812,
1862), computes an absolute new value from the observed one (observed + 1
on submit, a clamped observed - 1 on terminal outcomes), and only then
calls updateQueueState with that absolute value.  The load and the merge
are two separate awaited storage operations; here each is one atomic
event, and the merge inside updateQueueState is granted full atomicity
(the most favourable reading of its locking for the claim).
-/

/-- One atomic storage event of a caller of the pendingTasks protocol:
the load it performs before calling updateQueueState, or the merge that
updateQueueState then applies. -/
inductive RmwEvent where
  | doLoad (caller : Nat)
  | doWrite (caller : Nat)
  deriving Repr, DecidableEq

/-- Value of pendingTasks visible in a store (0 when the record is absent,
matching the falsy default applied at every read site). -/
def pendingOf (st : Store) : Int :=
  match st with
  | none => 0
  | some s => s.pendingTasks

/-- Execute one caller event.  A caller that loads an absent record skips
its write (the source guards every such write with a presence check on the
loaded state); a write uses the value the same caller most recently
loaded.  `isInc caller = true` means the caller is an incrementer
(part_000 line 476), otherwise a clamped decrementer (lines 496, 1820,
1864). -/
def rmwStep (isInc : Nat → Bool) (p : Store × List (Nat × Int)) (e : RmwEvent) :
    Store × List (Nat × Int) :=
  match e with
  | .doLoad i =>
    match p.1 with
    | none => p
    | some s => (p.1, (i, s.pendingTasks) :: p.2)
  | .doWrite i =>
    match List.lookup i p.2 with
    | none => p
    | some v =>
      let newVal : Int := if isInc i then v + 1 else max 0 (v - 1)
      (updateStore p.1 { pendingTasks := some newVal }, p.2)

/-- Run a whole interleaving of caller events against the store. -/
def rmwRun (isInc : Nat → Bool) (events : List RmwEvent)
    (p : Store × List (Nat × Int)) : Store × List (Nat × Int) :=
  events.foldl (rmwStep isInc) p

/-- The fully sequential schedule for callers k, k+1, ..., k+n-1: each
caller performs its load immediately followed by its write, with no other
caller in between. -/
def seqEvents (k : Nat) : Nat → List RmwEvent
  | 0 => []
  | n + 1 => .doLoad k :: .doWrite k :: seqEvents (k + 1) n

/-- Algebraic sum of the deltas of callers k, ..., k+n-1 (+1 for an
incrementer, -1 for a decrementer). -/
def algSum (isInc : Nat → Bool) (k : Nat) : Nat → Int
  | 0 => 0
  | n + 1 => (if isInc k then (1 : Int) else -1) + algSum isInc (k + 1) n

/-
Filename sanitisation (claim C10).

sanitizeFilename is src/launcher.js lines 149-154 (background part);
generatePromptSnippet is part_000 lines 2256-2270.  Strings are lists of
characters; the JS trim test and the whitespace split are modelled with
Char.isWhitespace.
-/

/-- Characters forbidden in filenames, the character class replaced by an
underscore in both sanitizeFilename and generatePromptSnippet. -/
def isForbiddenChar (c : Char) : Bool :=
  c == '\\' || c == '/' || c == ':' || c == '*' || c == '?' ||
  c == '"' || c == '<' || c == '>' || c == '|'

/-- The global replacement of every forbidden character by an underscore. -/
def replaceForbidden (l : List Char) : List Char :=
  l.map (fun c => if isForbiddenChar c then '_' else c)

/-- The fallback filename used by sanitizeFilename. -/
def defaultFilename : List Char := ("flow_video.mp4").data

/-- Whether the JS trim of this string is empty: every character is
whitespace (true of the empty string). -/
def wsOnly (l : List Char) : Bool := l.all Char.isWhitespace

/-- sanitizeFilename (launcher.js lines 149-154).  The empty list also
covers the absent argument: both are falsy, and the function starts with a
falsy-default to the fallback name. -/
def sanitizeFilename (name : List Char) : List Char :=
  let n0 := if name = [] then defaultFilename else name
  let n1 := replaceForbidden n0
  if wsOnly n1 then defaultFilename else n1

/-- Leading and trailing whitespace removal, as in the JS trim calls of
generatePromptSnippet. -/
def trimWs (l : List Char) : List Char :=
  ((l.dropWhile Char.isWhitespace).reverse.dropWhile Char.isWhitespace).reverse

/-- Splitting on runs of whitespace, as in the split on a whitespace-run
pattern in generatePromptSnippet; the input is already trimmed there, so
no empty words arise. -/
def splitWsAux : List Char → List Char → List (List Char)
  | [], acc => if acc = [] then [] else [acc.reverse]
  | c :: rest, acc =>
    if c.isWhitespace then
      if acc = [] then splitWsAux rest []
      else acc.reverse :: splitWsAux rest []
    else splitWsAux rest (c :: acc)

/-- Whitespace-run split of a string. -/
def splitWs (l : List Char) : List (List Char) := splitWsAux l []

/-- Join a list of words with underscores, as in the join of the first five
words in generatePromptSnippet. -/
def joinUnderscore : List (List Char) → List Char
  | [] => []
  | [w] => w
  | w :: ws => w ++ '_' :: joinUnderscore ws

/-- The fallback snippet for an empty prompt. -/
def noPromptSnippet : List Char := ("no_prompt").data

/-- generatePromptSnippet (part_000 lines 2256-2270): empty prompt falls
back immediately; a multi-word prompt contributes its first five words
joined by underscores, a single-word prompt its first fifteen characters;
forbidden characters are replaced, and an empty result falls back. -/
def generatePromptSnippet (prompt : List Char) : List Char :=
  if prompt = [] then noPromptSnippet
  else
    let words := splitWs (trimWs prompt)
    let snippet := if 1 < words.length then joinUnderscore (words.take 5)
      else (trimWs prompt).take 15
    let cleaned := replaceForbidden snippet
    if cleaned = [] then noPromptSnippet else cleaned

/-- Helper for the sequential pendingTasks protocol: with enough initial
slack to keep every clamped decrement away from 0, a fully sequential run
of callers k..k+n-1 adds exactly the algebraic sum of their deltas. -/
theorem rmwRun_seq (isInc : Nat → Bool) (n : Nat) :
    ∀ (k : Nat) (s : QueueState) (obs : List (Nat × Int)),
      (n : Int) ≤ s.pendingTasks →
      pendingOf (rmwRun isInc (seqEvents k n) (some s, obs)).1 =
        s.pendingTasks + algSum isInc k n := by
  induction n with
  | zero =>
    intro k s obs _
    simp [rmwRun, seqEvents, algSum, pendingOf]
  | succ n ih =>
    intro k s obs h
    have hcast : ((n : Int) + 1) ≤ s.pendingTasks := by
      exact_mod_cast h
    have hd : (-1 : Int) ≤ (if isInc k then (1 : Int) else -1) := by
      rcases Bool.eq_false_or_eq_true (isInc k) with hb | hb <;> simp [hb]
    have hv : (if isInc k then s.pendingTasks + 1 else max 0 (s.pendingTasks - 1)) =
        s.pendingTasks + (if isInc k then (1 : Int) else -1) := by
      cases hb : isInc k with
      | false =>
        simp only [hb, Bool.false_eq_true, if_false]
        rw [max_eq_right (by omega : (0 : Int) ≤ s.pendingTasks - 1)]
        ring
      | true => simp [hb]
    have step2 := ih (k + 1)
      (applyUpdate s { pendingTasks := some (s.pendingTasks + (if isInc k then (1 : Int) else -1)) })
      ((k, s.pendingTasks) :: obs)
      (by simp only [applyUpdate_pendingTasks, Option.getD_some]; omega)
    simp only [seqEvents, rmwRun, List.foldl_cons, rmwStep, List.lookup,
      beq_self_eq_true, if_true, updateStore, Option.getD_some] at step2 ⊢
    rw [hv]
    rw [step2]
    simp only [applyUpdate_pendingTasks, Option.getD_some, algSum]
    ring

/-- C1, counterexample: two concurrent callers of updateQueueState, each
incrementing pendingTasks by one in the source's way (load the state,
pass the observed value plus one to the merge).  When both loads precede
both merges - an interleaving nothing in updateQueueState prevents, since
each caller's load is a separate awaited storage operation performed
before updateQueueState is even called - the final value is initial + 1,
not initial + 2: one update is lost even though every merge itself is
granted atomicity. -/
theorem C1_lost_update_counterexample :
    pendingOf (rmwRun (fun _ => true)
      [.doLoad 0, .doLoad 1, .doWrite 0, .doWrite 1]
      (some { pendingTasks := 0 }, [])).1 = 1 ∧ (1 : Int) ≠ 0 + (1 + 1) := by
  constructor
  · rfl
  · decide

/-- C1, amended: the no-lost-update guarantee holds only for fully
sequential groups of callers - each caller loads after the previous
caller's merge has landed - and with enough initial pendingTasks that no
clamped decrement is cut off at 0.  Then the final persisted pendingTasks
equals the initial value plus the algebraic sum of all the deltas. -/
theorem C1_sequential_sum (isInc : Nat → Bool) (n : Nat) (s : QueueState)
    (h : (n : Int) ≤ s.pendingTasks) :
    pendingOf (rmwRun isInc (seqEvents 0 n) (some s, [])).1 =
      s.pendingTasks + algSum isInc 0 n :=
  rmwRun_seq isInc n 0 s [] h

/-- Witness for C1_sequential_sum: one incrementer then one decrementer,
run sequentially from pendingTasks = 5, lands back on 5. -/
theorem C1_sequential_sum_witness :
    ((2 : Nat) : Int) ≤ ({ pendingTasks := 5 } : QueueState).pendingTasks ∧
    pendingOf (rmwRun (fun i => i == 0) (seqEvents 0 2)
      (some { pendingTasks := 5 }, [])).1 =
      ({ pendingTasks := 5 } : QueueState).pendingTasks +
        algSum (fun i => i == 0) 0 2 :=
  ⟨by decide, C1_sequential_sum (fun i => i == 0) 2 { pendingTasks := 5 } (by decide)⟩

/-- The underscore replacement leaves no forbidden character behind. -/
theorem replaceForbidden_clean (l : List Char) :
    (replaceForbidden l).all (fun c => !isForbiddenChar c) = true := by
  rw [replaceForbidden, List.all_map, List.all_eq_true]
  intro c _
  by_cases hc : isForbiddenChar c = true
  · simp only [Function.comp_apply, hc, if_true]
    decide
  · simp only [Function.comp_apply, hc, if_false, Bool.not_eq_true]
    simp only [Bool.not_eq_true] at hc
    simp [hc]

/-- A string whose characters are not all whitespace is nonempty. -/
theorem ne_nil_of_wsOnly_false {l : List Char} (h : wsOnly l = false) : l ≠ [] := by
  intro hl
  rw [hl] at h
  simp [wsOnly] at h

/-- C10: the filename passed to the browser download API contains none of
the nine forbidden characters and is never empty or whitespace-only:
sanitizeFilename replaces each forbidden character with an underscore and
falls back to the fixed default name for a missing or blank input, and the
prompt-derived snippet likewise substitutes those characters and defaults
to the fixed fallback for an empty prompt. -/
theorem C10_download_filenames :
    (∀ name : List Char,
      (sanitizeFilename name).all (fun c => !isForbiddenChar c) = true ∧
      sanitizeFilename name ≠ [] ∧ wsOnly (sanitizeFilename name) = false) ∧
    (∀ prompt : List Char,
      (generatePromptSnippet prompt).all (fun c => !isForbiddenChar c) = true ∧
      generatePromptSnippet prompt ≠ []) ∧
    generatePromptSnippet [] = noPromptSnippet := by
  refine ⟨?_, ?_, by decide⟩
  · intro name
    rw [sanitizeFilename]
    by_cases hws : wsOnly (replaceForbidden (if name = [] then defaultFilename else name)) = true
    · simp only [hws, if_true]
      refine ⟨by decide, by decide, by decide⟩
    · simp only [Bool.not_eq_true] at hws
      simp only [hws, Bool.false_eq_true, if_false]
      exact ⟨replaceForbidden_clean _, ne_nil_of_wsOnly_false hws, trivial⟩
  · intro prompt
    rw [generatePromptSnippet]
    by_cases hp : prompt = []
    · simp only [hp, if_true]
      exact ⟨by decide, by decide⟩
    · simp only [hp, if_false]
      by_cases hz : replaceForbidden (if 1 < (splitWs (trimWs prompt)).length then
          joinUnderscore ((splitWs (trimWs prompt)).take 5)
        else (trimWs prompt).take 15) = []
      · simp only [hz, if_true]
        exact ⟨by decide, by decide⟩
      · simp only [hz, if_false]
        exact ⟨replaceForbidden_clean _, hz⟩

/-
Interleaved semantics of the steady-state system (claims C3, C6, C7, and
the no-resubmission part of C5): one submission loop (processQueue,
part_000 lines 286-405, calling processTask, lines 411-503) plus the
completion watches it spawns (waitForTaskCompletion, lines 1785-1873, the
later of the two definitions of that method, which is the one in effect).

Granularity: every awaited storage operation - a loadQueueState or the
merge a updateQueueState call applies - is one atomic step; everything
between two storage operations of the same participant is collapsed into
the step that ends at the next one.  The phases below are exactly the
positions between storage operations.

Scope: one run, between a completed start and the next start, pause or
clear, with the store present throughout (store absence and cross-run
interference are treated under claims C4, C5 and C8).  Within a run the
in-memory queueRunning flag stays true, so the loop's flag checks pass and
are not modelled as branches.
-/

/-- The update written by the completion branch of processQueue (part_000
lines 318-322), and also by the stop writes of handleStartQueue (lines
126-130 and 167-171) and of auto-resume correction (lines 2320-2324). -/
def stopUpd : QueueUpdate :=
  { running := some false, paused := some false, pendingTasks := some 0 }

/-- The update written by processTask after a successful submission
(part_000 lines 474-477): the observed pendingTasks plus one. -/
def incrUpd (obs : QueueState) : QueueUpdate :=
  { pendingTasks := some (obs.pendingTasks + 1) }

/-- The update written by the catch of processTask (part_000 lines
493-498): clamped decrement of the observed pendingTasks and observed
failCount plus one. -/
def taskCatchUpd (obs : QueueState) : QueueUpdate :=
  { pendingTasks := some (max 0 (obs.pendingTasks - 1)),
    failCount := some (obs.failCount + 1) }

/-- The state written by the success path of the processQueue loop body
(part_000 lines 361-364): the freshly loaded state, with currentIndex set
to the captured task index plus one; the full object is passed to
updateQueueState, so every field of the loaded snapshot is written back. -/
def advanceWrite (st0 upd : QueueState) : QueueState :=
  { upd with currentIndex := st0.currentIndex + 1 }

/-- The state written by the catch of processQueue (part_000 lines
381-386): the freshly loaded state with failCount plus one and
currentIndex plus one, passed whole to updateQueueState. -/
def loopCatchWrite (obs : QueueState) : QueueState :=
  { obs with failCount := obs.failCount + 1, currentIndex := obs.currentIndex + 1 }

/-- The update written by a completion watch on terminal success (part_000
lines 1815-1825): observed successCount plus one and clamped decrement of
the observed pendingTasks. -/
def watchOkUpd (obs : QueueState) : QueueUpdate :=
  { successCount := some (obs.successCount + 1),
    pendingTasks := some (max 0 (obs.pendingTasks - 1)) }

/-- The update written by a completion watch on terminal failure (part_000
lines 1862-1868): clamped decrement of the observed pendingTasks and
observed failCount plus one. -/
def watchErrUpd (obs : QueueState) : QueueUpdate :=
  { pendingTasks := some (max 0 (obs.pendingTasks - 1)),
    failCount := some (obs.failCount + 1) }

/-- Position of the submission loop between storage operations.  A phase
carrying st0 is inside an iteration whose top-of-loop load returned st0
and passed the admission checks; obs and upd snapshots are the later loads
of the same iteration. -/
inductive LoopPhase where
  | top
  | draining
  | exited
  | working (st0 : QueueState)
  | submitted (st0 obs : QueueState)
  | incremented (st0 : QueueState)
  | advancing (st0 upd : QueueState)
  | failingA (st0 obs : QueueState)
  | failedA (st0 : QueueState)
  | failingB (st0 obs : QueueState)
  deriving Repr, DecidableEq

/-- Position of one spawned completion watch between storage operations. -/
inductive WatchPhase where
  | waiting
  | loadedOk (obs : QueueState)
  | loadedErr (obs : QueueState)
  | finished
  deriving Repr, DecidableEq

/-- Whole-system state: the persisted QueueState, the loop position, and
the spawned watches. -/
structure Sys where
  store : QueueState
  loop : LoopPhase
  watches : List WatchPhase
  deriving Repr, DecidableEq

/-- Which participant takes the step. -/
inductive Lbl where
  | loopStep
  | watchStep
  deriving Repr, DecidableEq

/-- One atomic step of the interleaved system.  Loop steps follow the
branch order of the processQueue body: completed-or-draining check first
(lines 301-324), then paused (line 326), then the capacity check (lines
341-350, both outcomes of the wait re-enter the loop), then the submission
attempt.  The watch steps are the terminal-outcome load and merge of
waitForTaskCompletion. -/
inductive Step : Sys → Lbl → Sys → Prop where
  | topComplete (st : QueueState) (w : List WatchPhase)
      (h1 : st.totalTasks ≤ st.currentIndex) (h2 : st.pendingTasks ≤ 0) :
      Step ⟨st, .top, w⟩ .loopStep ⟨applyUpdate st stopUpd, .exited, w⟩
  | topDrain (st : QueueState) (w : List WatchPhase)
      (h1 : st.totalTasks ≤ st.currentIndex) (h2 : 0 < st.pendingTasks) :
      Step ⟨st, .top, w⟩ .loopStep ⟨st, .draining, w⟩
  | drainWake (st : QueueState) (w : List WatchPhase) :
      Step ⟨st, .draining, w⟩ .loopStep ⟨st, .top, w⟩
  | topPaused (st : QueueState) (w : List WatchPhase)
      (h1 : st.currentIndex < st.totalTasks) (h2 : st.paused = true) :
      Step ⟨st, .top, w⟩ .loopStep ⟨st, .top, w⟩
  | topFull (st : QueueState) (w : List WatchPhase)
      (h1 : st.currentIndex < st.totalTasks) (h2 : st.paused = false)
      (h3 : QUEUE_LIMIT ≤ st.pendingTasks) :
      Step ⟨st, .top, w⟩ .loopStep ⟨st, .top, w⟩
  | topAdmit (st : QueueState) (w : List WatchPhase)
      (h1 : st.currentIndex < st.totalTasks) (h2 : st.paused = false)
      (h3 : st.pendingTasks < QUEUE_LIMIT) :
      Step ⟨st, .top, w⟩ .loopStep ⟨st, .working st, w⟩
  | submitLoad (st st0 : QueueState) (w : List WatchPhase) :
      Step ⟨st, .working st0, w⟩ .loopStep ⟨st, .submitted st0 st, w⟩
  | submitWrite (st st0 obs : QueueState) (w : List WatchPhase) :
      Step ⟨st, .submitted st0 obs, w⟩ .loopStep
        ⟨applyUpdate st (incrUpd obs), .incremented st0, w⟩
  | advLoad (st st0 : QueueState) (w : List WatchPhase) :
      Step ⟨st, .incremented st0, w⟩ .loopStep ⟨st, .advancing st0 st, .waiting :: w⟩
  | advWrite (st st0 upd : QueueState) (w : List WatchPhase) :
      Step ⟨st, .advancing st0 upd, w⟩ .loopStep ⟨advanceWrite st0 upd, .top, w⟩
  | failLoadA (st st0 : QueueState) (w : List WatchPhase) :
      Step ⟨st, .working st0, w⟩ .loopStep ⟨st, .failingA st0 st, w⟩
  | failWriteA (st st0 obs : QueueState) (w : List WatchPhase) :
      Step ⟨st, .failingA st0 obs, w⟩ .loopStep
        ⟨applyUpdate st (taskCatchUpd obs), .failedA st0, w⟩
  | failLoadB (st st0 : QueueState) (w : List WatchPhase) :
      Step ⟨st, .failedA st0, w⟩ .loopStep ⟨st, .failingB st0 st, w⟩
  | failWriteB (st st0 obs : QueueState) (w : List WatchPhase) :
      Step ⟨st, .failingB st0 obs, w⟩ .loopStep ⟨loopCatchWrite obs, .top, w⟩
  | watchLoadOk (st : QueueState) (l : LoopPhase) (w : List WatchPhase) (i : Nat)
      (h : w[i]? = some .waiting) :
      Step ⟨st, l, w⟩ .watchStep ⟨st, l, w.set i (.loadedOk st)⟩
  | watchWriteOk (st : QueueState) (l : LoopPhase) (w : List WatchPhase) (i : Nat)
      (obs : QueueState) (h : w[i]? = some (.loadedOk obs)) :
      Step ⟨st, l, w⟩ .watchStep ⟨applyUpdate st (watchOkUpd obs), l, w.set i .finished⟩
  | watchLoadErr (st : QueueState) (l : LoopPhase) (w : List WatchPhase) (i : Nat)
      (h : w[i]? = some .waiting) :
      Step ⟨st, l, w⟩ .watchStep ⟨st, l, w.set i (.loadedErr st)⟩
  | watchWriteErr (st : QueueState) (l : LoopPhase) (w : List WatchPhase) (i : Nat)
      (obs : QueueState) (h : w[i]? = some (.loadedErr obs)) :
      Step ⟨st, l, w⟩ .watchStep ⟨applyUpdate st (watchErrUpd obs), l, w.set i .finished⟩

/-- Some participant takes a step. -/
def StepAny (a b : Sys) : Prop := ∃ l, Step a l b

/-- Reachability by interleaved execution. -/
def Reaches : Sys → Sys → Prop := Relation.ReflTransGen StepAny

/-- System state at the start of a run or a resumption: the loop is at the
top of its first iteration with the persisted state st0, no watch spawned
yet. -/
def initSys (st0 : QueueState) : Sys := ⟨st0, .top, []⟩

/-- The fresh QueueState persisted by handleStartQueue for a run of n
tasks (part_000 lines 189-202), after the popup's initial write
contributed queueId (popup.js lines 725-739). -/
def freshState (n : Nat) (qid now : Nat) : QueueState :=
  { totalTasks := n, currentIndex := 0, running := true, paused := false,
    successCount := 0, failCount := 0, pendingTasks := 0,
    queueId := some qid, createdAt := now }

/-- Bounds that every persisted state of a run satisfies. -/
def stInv (st : QueueState) : Prop :=
  0 ≤ st.pendingTasks ∧ st.pendingTasks ≤ QUEUE_LIMIT ∧ st.currentIndex ≤ st.totalTasks

/-- Flags of a run that has not yet reached completion. -/
def activeFlags (st : QueueState) : Prop := st.running = true ∧ st.paused = false

/-- Relation between the store and the snapshot st0 taken at the top of
the current iteration: the loop is the only writer of currentIndex and
totalTasks, so they still agree, and the iteration was admitted with the
index strictly below the total. -/
def midInv (st st0 : QueueState) : Prop :=
  st.currentIndex = st0.currentIndex ∧ st.totalTasks = st0.totalTasks ∧
  st0.currentIndex < st0.totalTasks

/-- Bounds on a loaded snapshot. -/
def obsInv (o : QueueState) : Prop := 0 ≤ o.pendingTasks ∧ o.pendingTasks ≤ QUEUE_LIMIT

/-- Phase-indexed part of the invariant. -/
def loopInv (st : QueueState) : LoopPhase → Prop
  | .top => True
  | .draining => True
  | .exited => True
  | .working st0 => midInv st st0 ∧ st.pendingTasks ≤ QUEUE_LIMIT - 1
  | .submitted st0 obs => midInv st st0 ∧ st.pendingTasks ≤ QUEUE_LIMIT - 1 ∧
      0 ≤ obs.pendingTasks ∧ obs.pendingTasks ≤ QUEUE_LIMIT - 1
  | .incremented st0 => midInv st st0
  | .advancing st0 upd => midInv st st0 ∧ upd.currentIndex = st0.currentIndex ∧
      upd.totalTasks = st0.totalTasks ∧ obsInv upd ∧ upd.running = true ∧
      upd.paused = false
  | .failingA st0 obs => midInv st st0 ∧ obsInv obs
  | .failedA st0 => midInv st st0
  | .failingB st0 obs => midInv st st0 ∧ obs.currentIndex = st0.currentIndex ∧
      obs.totalTasks = st0.totalTasks ∧ obsInv obs ∧ obs.running = true ∧
      obs.paused = false

/-- Invariant of one watch. -/
def wInv : WatchPhase → Prop
  | .waiting => True
  | .finished => True
  | .loadedOk o => obsInv o
  | .loadedErr o => obsInv o

/-- The inductive invariant of the interleaved system. -/
structure Inv (s : Sys) : Prop where
  bounds : stInv s.store
  act : s.loop ≠ LoopPhase.exited → activeFlags s.store
  lp : loopInv s.store s.loop
  wa : ∀ x ∈ s.watches, wInv x

theorem clamp_nonneg (p : Int) : 0 ≤ max 0 (p - 1) := le_max_left _ _

theorem clamp_le_limit {p : Int} (h : p ≤ QUEUE_LIMIT) :
    max 0 (p - 1) ≤ QUEUE_LIMIT - 1 := by
  simp only [QUEUE_LIMIT] at *
  exact max_le (by norm_num) (by omega)

/-- Preservation: every step of the interleaved system keeps the
invariant. -/
theorem inv_step {s s' : Sys} {l : Lbl} (hInv : Inv s) (hStep : Step s l s') :
    Inv s' := by
  obtain ⟨hst, hact, hloop, hw⟩ := hInv
  simp only [stInv] at hst
  obtain ⟨hp0, hpL, hit⟩ := hst
  cases hStep with
  | topComplete st w h1 h2 =>
    refine ⟨?_, ?_, ?_, hw⟩
    · simp only [stInv, applyUpdate_pendingTasks, applyUpdate_currentIndex,
        applyUpdate_totalTasks, stopUpd, Option.getD_some, Option.getD_none]
      refine ⟨le_refl _, ?_, hit⟩
      simp [QUEUE_LIMIT]
    · intro hne; exact absurd rfl hne
    · simp [loopInv]
  | topDrain st w h1 h2 =>
    exact ⟨⟨hp0, hpL, hit⟩, fun _ => hact (by simp), by simp [loopInv], hw⟩
  | drainWake st w =>
    exact ⟨⟨hp0, hpL, hit⟩, fun _ => hact (by simp), by simp [loopInv], hw⟩
  | topPaused st w h1 h2 =>
    exact ⟨⟨hp0, hpL, hit⟩, fun _ => hact (by simp), by simp [loopInv], hw⟩
  | topFull st w h1 h2 h3 =>
    exact ⟨⟨hp0, hpL, hit⟩, fun _ => hact (by simp), by simp [loopInv], hw⟩
  | topAdmit st w h1 h2 h3 =>
    refine ⟨⟨hp0, hpL, hit⟩, fun _ => hact (by simp), ?_, hw⟩
    simp only [loopInv, midInv]
    exact ⟨⟨by simp, by simp, h1⟩, by omega⟩
  | submitLoad st st0 w =>
    simp only [loopInv, midInv] at hloop
    obtain ⟨hmid, hcap⟩ := hloop
    refine ⟨⟨hp0, hpL, hit⟩, fun _ => hact (by simp), ?_, hw⟩
    simp only [loopInv]
    exact ⟨hmid, hcap, hp0, hcap⟩
  | submitWrite st st0 obs w =>
    simp only [loopInv, midInv] at hloop
    obtain ⟨⟨hi, ht, hlt⟩, hcap, ho0, hoL⟩ := hloop
    have hT := hact (by simp)
    simp only [activeFlags] at hT
    refine ⟨?_, ?_, ?_, hw⟩
    · simp only [stInv, applyUpdate_pendingTasks, applyUpdate_currentIndex,
        applyUpdate_totalTasks, incrUpd, Option.getD_some, Option.getD_none]
      exact ⟨by omega, by omega, hit⟩
    · intro _
      simp only [activeFlags, applyUpdate_running, applyUpdate_paused, incrUpd,
        Option.getD_none]
      exact hT
    · simp only [loopInv, midInv, applyUpdate_currentIndex, applyUpdate_totalTasks,
        incrUpd, Option.getD_none]
      exact ⟨hi, ht, hlt⟩
  | advLoad st st0 w =>
    simp only [loopInv, midInv] at hloop
    obtain ⟨hi, ht, hlt⟩ := hloop
    have hT := hact (by simp)
    simp only [activeFlags] at hT
    refine ⟨⟨hp0, hpL, hit⟩, fun _ => hact (by simp), ?_, ?_⟩
    · simp only [loopInv, midInv, obsInv]
      exact ⟨⟨hi, ht, hlt⟩, hi, ht, ⟨hp0, hpL⟩, hT.1, hT.2⟩
    · intro x hx
      rcases List.mem_cons.mp hx with h | h
      · subst h; simp [wInv]
      · exact hw x h
  | advWrite st st0 upd w =>
    simp only [loopInv, midInv] at hloop
    obtain ⟨⟨hi, ht, hlt⟩, hui, hut, ⟨hu0, huL⟩, hur, hup⟩ := hloop
    refine ⟨?_, ?_, by simp [loopInv], hw⟩
    · simp only [stInv, advanceWrite]
      refine ⟨hu0, huL, ?_⟩
      rw [hut]
      omega
    · intro _
      simp only [activeFlags, advanceWrite]
      exact ⟨hur, hup⟩
  | failLoadA st st0 w =>
    simp only [loopInv, midInv] at hloop
    obtain ⟨hmid, hcap⟩ := hloop
    refine ⟨⟨hp0, hpL, hit⟩, fun _ => hact (by simp), ?_, hw⟩
    simp only [loopInv, obsInv]
    exact ⟨hmid, hp0, hpL⟩
  | failWriteA st st0 obs w =>
    simp only [loopInv, midInv, obsInv] at hloop
    obtain ⟨⟨hi, ht, hlt⟩, ho0, hoL⟩ := hloop
    have hT := hact (by simp)
    simp only [activeFlags] at hT
    refine ⟨?_, ?_, ?_, hw⟩
    · simp only [stInv, applyUpdate_pendingTasks, applyUpdate_currentIndex,
        applyUpdate_totalTasks, taskCatchUpd, Option.getD_some, Option.getD_none]
      exact ⟨clamp_nonneg _, le_trans (clamp_le_limit hoL) (by simp [QUEUE_LIMIT]), hit⟩
    · intro _
      simp only [activeFlags, applyUpdate_running, applyUpdate_paused, taskCatchUpd,
        Option.getD_none]
      exact hT
    · simp only [loopInv, midInv, applyUpdate_currentIndex, applyUpdate_totalTasks,
        taskCatchUpd, Option.getD_none]
      exact ⟨hi, ht, hlt⟩
  | failLoadB st st0 w =>
    simp only [loopInv, midInv] at hloop
    obtain ⟨hi, ht, hlt⟩ := hloop
    have hT := hact (by simp)
    simp only [activeFlags] at hT
    refine ⟨⟨hp0, hpL, hit⟩, fun _ => hact (by simp), ?_, hw⟩
    simp only [loopInv, midInv, obsInv]
    exact ⟨⟨hi, ht, hlt⟩, hi, ht, ⟨hp0, hpL⟩, hT.1, hT.2⟩
  | failWriteB st st0 obs w =>
    simp only [loopInv, midInv, obsInv] at hloop
    obtain ⟨⟨hi, ht, hlt⟩, hoi, hot, ⟨ho0, hoL⟩, hor, hop⟩ := hloop
    refine ⟨?_, ?_, by simp [loopInv], hw⟩
    · simp only [stInv, loopCatchWrite]
      refine ⟨ho0, hoL, ?_⟩
      rw [hot]
      omega
    · intro _
      simp only [activeFlags, loopCatchWrite]
      exact ⟨hor, hop⟩
  | watchLoadOk st lp w i h =>
    refine ⟨⟨hp0, hpL, hit⟩, hact, hloop, ?_⟩
    intro x hx
    rcases List.mem_or_eq_of_mem_set hx with hm | hm
    · exact hw x hm
    · subst hm
      simp only [wInv, obsInv]
      exact ⟨hp0, hpL⟩
  | watchWriteOk st lp w i obs h =>
    have hobs : obsInv obs := by
      have := hw _ (List.getElem?_mem h)
      simpa [wInv] using this
    simp only [obsInv] at hobs
    refine ⟨?_, ?_, ?_, ?_⟩
    · simp only [stInv, applyUpdate_pendingTasks, applyUpdate_currentIndex,
        applyUpdate_totalTasks, watchOkUpd, Option.getD_some, Option.getD_none]
      exact ⟨clamp_nonneg _, le_trans (clamp_le_limit hobs.2) (by simp [QUEUE_LIMIT]), hit⟩
    · intro hne
      have hT := hact hne
      simp only [activeFlags] at hT ⊢
      simp only [applyUpdate_running, applyUpdate_paused, watchOkUpd, Option.getD_none]
      exact hT
    · cases lp with
      | top => simp [loopInv]
      | draining => simp [loopInv]
      | exited => simp [loopInv]
      | working st0 =>
        simp only [loopInv, midInv] at hloop ⊢
        obtain ⟨⟨hi, ht, hlt⟩, hcap⟩ := hloop
        simp only [applyUpdate_currentIndex, applyUpdate_totalTasks,
          applyUpdate_pendingTasks, watchOkUpd, Option.getD_some, Option.getD_none]
        exact ⟨⟨hi, ht, hlt⟩, clamp_le_limit hobs.2⟩
      | submitted st0 o =>
        simp only [loopInv, midInv] at hloop ⊢
        obtain ⟨⟨hi, ht, hlt⟩, hcap, ho0, hoL⟩ := hloop
        simp only [applyUpdate_currentIndex, applyUpdate_totalTasks,
          applyUpdate_pendingTasks, watchOkUpd, Option.getD_some, Option.getD_none]
        exact ⟨⟨hi, ht, hlt⟩, clamp_le_limit hobs.2, ho0, hoL⟩
      | incremented st0 =>
        simp only [loopInv, midInv] at hloop ⊢
        simp only [applyUpdate_currentIndex, applyUpdate_totalTasks, watchOkUpd,
          Option.getD_none]
        exact hloop
      | advancing st0 upd =>
        simp only [loopInv, midInv] at hloop ⊢
        simp only [applyUpdate_currentIndex, applyUpdate_totalTasks, watchOkUpd,
          Option.getD_none]
        exact hloop
      | failingA st0 o =>
        simp only [loopInv, midInv] at hloop ⊢
        simp only [applyUpdate_currentIndex, applyUpdate_totalTasks, watchOkUpd,
          Option.getD_none]
        exact hloop
      | failedA st0 =>
        simp only [loopInv, midInv] at hloop ⊢
        simp only [applyUpdate_currentIndex, applyUpdate_totalTasks, watchOkUpd,
          Option.getD_none]
        exact hloop
      | failingB st0 o =>
        simp only [loopInv, midInv] at hloop ⊢
        simp only [applyUpdate_currentIndex, applyUpdate_totalTasks, watchOkUpd,
          Option.getD_none]
        exact hloop
    · intro x hx
      rcases List.mem_or_eq_of_mem_set hx with hm | hm
      · exact hw x hm
      · subst hm; simp [wInv]
  | watchLoadErr st lp w i h =>
    refine ⟨⟨hp0, hpL, hit⟩, hact, hloop, ?_⟩
    intro x hx
    rcases List.mem_or_eq_of_mem_set hx with hm | hm
    · exact hw x hm
    · subst hm
      simp only [wInv, obsInv]
      exact ⟨hp0, hpL⟩
  | watchWriteErr st lp w i obs h =>
    have hobs : obsInv obs := by
      have := hw _ (List.getElem?_mem h)
      simpa [wInv] using this
    simp only [obsInv] at hobs
    refine ⟨?_, ?_, ?_, ?_⟩
    · simp only [stInv, applyUpdate_pendingTasks, applyUpdate_currentIndex,
        applyUpdate_totalTasks, watchErrUpd, Option.getD_some, Option.getD_none]
      exact ⟨clamp_nonneg _, le_trans (clamp_le_limit hobs.2) (by simp [QUEUE_LIMIT]), hit⟩
    · intro hne
      have hT := hact hne
      simp only [activeFlags] at hT ⊢
      simp only [applyUpdate_running, applyUpdate_paused, watchErrUpd, Option.getD_none]
      exact hT
    · cases lp with
      | top => simp [loopInv]
      | draining => simp [loopInv]
      | exited => simp [loopInv]
      | working st0 =>
        simp only [loopInv, midInv] at hloop ⊢
        obtain ⟨⟨hi, ht, hlt⟩, hcap⟩ := hloop
        simp only [applyUpdate_currentIndex, applyUpdate_totalTasks,
          applyUpdate_pendingTasks, watchErrUpd, Option.getD_some, Option.getD_none]
        exact ⟨⟨hi, ht, hlt⟩, clamp_le_limit hobs.2⟩
      | submitted st0 o =>
        simp only [loopInv, midInv] at hloop ⊢
        obtain ⟨⟨hi, ht, hlt⟩, hcap, ho0, hoL⟩ := hloop
        simp only [applyUpdate_currentIndex, applyUpdate_totalTasks,
          applyUpdate_pendingTasks, watchErrUpd, Option.getD_some, Option.getD_none]
        exact ⟨⟨hi, ht, hlt⟩, clamp_le_limit hobs.2, ho0, hoL⟩
      | incremented st0 =>
        simp only [loopInv, midInv] at hloop ⊢
        simp only [applyUpdate_currentIndex, applyUpdate_totalTasks, watchErrUpd,
          Option.getD_none]
        exact hloop
      | advancing st0 upd =>
        simp only [loopInv, midInv] at hloop ⊢
        simp only [applyUpdate_currentIndex, applyUpdate_totalTasks, watchErrUpd,
          Option.getD_none]
        exact hloop
      | failingA st0 o =>
        simp only [loopInv, midInv] at hloop ⊢
        simp only [applyUpdate_currentIndex, applyUpdate_totalTasks, watchErrUpd,
          Option.getD_none]
        exact hloop
      | failedA st0 =>
        simp only [loopInv, midInv] at hloop ⊢
        simp only [applyUpdate_currentIndex, applyUpdate_totalTasks, watchErrUpd,
          Option.getD_none]
        exact hloop
      | failingB st0 o =>
        simp only [loopInv, midInv] at hloop ⊢
        simp only [applyUpdate_currentIndex, applyUpdate_totalTasks, watchErrUpd,
          Option.getD_none]
        exact hloop
    · intro x hx
      rcases List.mem_or_eq_of_mem_set hx with hm | hm
      · exact hw x hm
      · subst hm; simp [wInv]

/-- The invariant holds along every execution. -/
theorem inv_reaches {s0 s : Sys} (h0 : Inv s0) (hr : Reaches s0 s) : Inv s := by
  induction hr with
  | refl => exact h0
  | tail _ hbc ih =>
    obtain ⟨l, hstep⟩ := hbc
    exact inv_step ih hstep

/-- A state whose bounds and flags are in order starts a valid run. -/
theorem inv_initSys (st0 : QueueState) (hb : stInv st0) (ha : activeFlags st0) :
    Inv (initSys st0) := by
  refine ⟨hb, fun _ => ha, trivial, ?_⟩
  intro x hx
  cases hx

/-- The fresh state of a new run satisfies the bounds. -/
theorem stInv_freshState (n qid now : Nat) : stInv (freshState n qid now) := by
  simp [stInv, freshState, QUEUE_LIMIT]

/-- The fresh state of a new run is active. -/
theorem activeFlags_freshState (n qid now : Nat) : activeFlags (freshState n qid now) := by
  simp [activeFlags, freshState]

/-- Effect of one step on the persisted currentIndex: unchanged, or
advanced by exactly one from an iteration that was admitted with the index
strictly below totalTasks. -/
theorem step_idx {s s' : Sys} {l : Lbl} (hInv : Inv s) (hStep : Step s l s') :
    s'.store.currentIndex = s.store.currentIndex ∨
    (s'.store.currentIndex = s.store.currentIndex + 1 ∧
      s.store.currentIndex < s.store.totalTasks) := by
  obtain ⟨hst, hact, hloop, hw⟩ := hInv
  cases hStep with
  | topComplete st w h1 h2 =>
    left
    simp [stopUpd]
  | topDrain st w h1 h2 => left; rfl
  | drainWake st w => left; rfl
  | topPaused st w h1 h2 => left; rfl
  | topFull st w h1 h2 h3 => left; rfl
  | topAdmit st w h1 h2 h3 => left; rfl
  | submitLoad st st0 w => left; rfl
  | submitWrite st st0 obs w =>
    left
    simp [incrUpd]
  | advLoad st st0 w => left; rfl
  | advWrite st st0 upd w =>
    simp only [loopInv, midInv] at hloop
    obtain ⟨⟨hi, ht, hlt⟩, hui, hut, _, _, _⟩ := hloop
    right
    refine ⟨?_, ?_⟩
    · show (advanceWrite st0 upd).currentIndex = st.currentIndex + 1
      simp only [advanceWrite]
      omega
    · show st.currentIndex < st.totalTasks
      omega
  | failLoadA st st0 w => left; rfl
  | failWriteA st st0 obs w =>
    left
    simp [taskCatchUpd]
  | failLoadB st st0 w => left; rfl
  | failWriteB st st0 obs w =>
    simp only [loopInv, midInv] at hloop
    obtain ⟨⟨hi, ht, hlt⟩, hoi, hot, _, _, _⟩ := hloop
    right
    refine ⟨?_, ?_⟩
    · show (loopCatchWrite obs).currentIndex = st.currentIndex + 1
      simp only [loopCatchWrite]
      omega
    · show st.currentIndex < st.totalTasks
      omega
  | watchLoadOk st lp w i h => left; rfl
  | watchWriteOk st lp w i obs h =>
    left
    simp [watchOkUpd]
  | watchLoadErr st lp w i h => left; rfl
  | watchWriteErr st lp w i obs h =>
    left
    simp [watchErrUpd]

/-- The persisted currentIndex never decreases along an execution. -/
theorem reaches_idx_le {s0 s : Sys} (h0 : Inv s0) (hr : Reaches s0 s) :
    s0.store.currentIndex ≤ s.store.currentIndex := by
  induction hr with
  | refl => exact le_refl _
  | tail hab hbc ih =>
    have hib := inv_reaches h0 hab
    obtain ⟨l, hstep⟩ := hbc
    rcases step_idx hib hstep with h | ⟨h, _⟩ <;> omega

/-- C6: within one run, every state transition made by the scheduler
leaves the persisted currentIndex unchanged or advances it by exactly one,
the advance happens only from an iteration admitted with the index
strictly below totalTasks, and currentIndex never exceeds totalTasks. -/
theorem C6_currentIndex_monotone (n qid now : Nat) (s s' : Sys) (l : Lbl)
    (hr : Reaches (initSys (freshState n qid now)) s) (hs : Step s l s') :
    s.store.currentIndex ≤ s'.store.currentIndex ∧
    s'.store.currentIndex ≤ s'.store.totalTasks ∧
    (s'.store.currentIndex = s.store.currentIndex ∨
      (s'.store.currentIndex = s.store.currentIndex + 1 ∧
        s.store.currentIndex < s.store.totalTasks)) := by
  have h0 : Inv (initSys (freshState n qid now)) :=
    inv_initSys _ (stInv_freshState n qid now) (activeFlags_freshState n qid now)
  have hi := inv_reaches h0 hr
  have hi' := inv_step hi hs
  have hd := step_idx hi hs
  have hb := hi'.bounds
  simp only [stInv] at hb
  refine ⟨?_, hb.2.2, hd⟩
  rcases hd with h | ⟨h, _⟩ <;> omega

/-- Witness for C6: the first admission step of a fresh three-task run. -/
theorem C6_currentIndex_monotone_witness :
    Reaches (initSys (freshState 3 1 2)) (initSys (freshState 3 1 2)) ∧
    ((initSys (freshState 3 1 2)).store.currentIndex ≤
        (Sys.mk (freshState 3 1 2) (.working (freshState 3 1 2)) []).store.currentIndex ∧
      (Sys.mk (freshState 3 1 2) (.working (freshState 3 1 2)) []).store.currentIndex ≤
        (Sys.mk (freshState 3 1 2) (.working (freshState 3 1 2)) []).store.totalTasks ∧
      ((Sys.mk (freshState 3 1 2) (.working (freshState 3 1 2)) []).store.currentIndex =
          (initSys (freshState 3 1 2)).store.currentIndex ∨
        ((Sys.mk (freshState 3 1 2) (.working (freshState 3 1 2)) []).store.currentIndex =
            (initSys (freshState 3 1 2)).store.currentIndex + 1 ∧
          (initSys (freshState 3 1 2)).store.currentIndex <
            (initSys (freshState 3 1 2)).store.totalTasks))) :=
  ⟨Relation.ReflTransGen.refl,
    C6_currentIndex_monotone 3 1 2 (initSys (freshState 3 1 2))
      (Sys.mk (freshState 3 1 2) (.working (freshState 3 1 2)) []) .loopStep
      Relation.ReflTransGen.refl
      (Step.topAdmit (freshState 3 1 2) [] (by decide) (by decide) (by decide))⟩

/-- C7: at every quiescent point of a run, pendingTasks stays between 0
and QUEUE_LIMIT; moreover, from a top-of-loop state that is at or over the
limit, no loop step changes the store or enters the submission phase - the
loop only waits and re-checks. -/
theorem C7_pending_bounded (n qid now : Nat) (s : Sys)
    (hr : Reaches (initSys (freshState n qid now)) s) :
    (0 ≤ s.store.pendingTasks ∧ s.store.pendingTasks ≤ QUEUE_LIMIT) ∧
    (s.loop = LoopPhase.top → QUEUE_LIMIT ≤ s.store.pendingTasks →
      ∀ s' : Sys, Step s Lbl.loopStep s' →
        s'.store = s.store ∧ ∀ st0 : QueueState, s'.loop ≠ LoopPhase.working st0) := by
  have h0 : Inv (initSys (freshState n qid now)) :=
    inv_initSys _ (stInv_freshState n qid now) (activeFlags_freshState n qid now)
  have hi := inv_reaches h0 hr
  have hb := hi.bounds
  simp only [stInv] at hb
  refine ⟨⟨hb.1, hb.2.1⟩, ?_⟩
  intro htop hfull s' hstep
  cases hstep with
  | topComplete st w h1 h2 =>
    exfalso
    have hf : QUEUE_LIMIT ≤ st.pendingTasks := hfull
    simp only [QUEUE_LIMIT] at hf
    omega
  | topDrain st w h1 h2 =>
    exact ⟨rfl, by intro st0 hc; cases hc⟩
  | drainWake st w => simp at htop
  | topPaused st w h1 h2 =>
    exact ⟨rfl, by intro st0 hc; cases hc⟩
  | topFull st w h1 h2 h3 =>
    exact ⟨rfl, by intro st0 hc; cases hc⟩
  | topAdmit st w h1 h2 h3 =>
    exfalso
    have hf : QUEUE_LIMIT ≤ st.pendingTasks := hfull
    omega
  | submitLoad st st0 w => simp at htop
  | submitWrite st st0 obs w => simp at htop
  | advLoad st st0 w => simp at htop
  | advWrite st st0 upd w => simp at htop
  | failLoadA st st0 w => simp at htop
  | failWriteA st st0 obs w => simp at htop
  | failLoadB st st0 w => simp at htop
  | failWriteB st st0 obs w => simp at htop

/-- Witness for C7: the bounds at the initial state of a fresh run. -/
theorem C7_pending_bounded_witness :
    (0 ≤ (initSys (freshState 2 1 1)).store.pendingTasks ∧
      (initSys (freshState 2 1 1)).store.pendingTasks ≤ QUEUE_LIMIT) ∧
    ((initSys (freshState 2 1 1)).loop = LoopPhase.top →
      QUEUE_LIMIT ≤ (initSys (freshState 2 1 1)).store.pendingTasks →
      ∀ s' : Sys, Step (initSys (freshState 2 1 1)) Lbl.loopStep s' →
        s'.store = (initSys (freshState 2 1 1)).store ∧
        ∀ st0 : QueueState, s'.loop ≠ LoopPhase.working st0) :=
  C7_pending_bounded 2 1 1 (initSys (freshState 2 1 1)) Relation.ReflTransGen.refl

/-- C3: a loop step persists the Completed flags (running and paused both
false) exactly when the loop is at the top of an iteration with
currentIndex equal to totalTasks and pendingTasks equal to zero; and while
currentIndex has reached totalTasks but pendingTasks is still positive,
every loop step leaves the store untouched (the loop only sleeps and
re-checks). -/
theorem C3_completed_iff_drained (n qid now : Nat) (s : Sys)
    (hr : Reaches (initSys (freshState n qid now)) s) :
    ((∃ s' : Sys, Step s Lbl.loopStep s' ∧ s'.store.running = false ∧
        s'.store.paused = false) ↔
      (s.loop = LoopPhase.top ∧ s.store.currentIndex = s.store.totalTasks ∧
        s.store.pendingTasks = 0)) ∧
    (s.store.totalTasks ≤ s.store.currentIndex → 0 < s.store.pendingTasks →
      ∀ s' : Sys, Step s Lbl.loopStep s' → s'.store = s.store) := by
  have h0 : Inv (initSys (freshState n qid now)) :=
    inv_initSys _ (stInv_freshState n qid now) (activeFlags_freshState n qid now)
  have hi := inv_reaches h0 hr
  obtain ⟨hst, hact, hloop, hw⟩ := hi
  simp only [stInv] at hst
  obtain ⟨hp0, hpL, hit⟩ := hst
  constructor
  · constructor
    · rintro ⟨s', hstep, hrun, hpau⟩
      cases hstep with
      | topComplete st w h1 h2 =>
        have hit2 : st.currentIndex ≤ st.totalTasks := hit
        have hp02 : (0 : Int) ≤ st.pendingTasks := hp0
        refine ⟨rfl, ?_, ?_⟩
        · show st.currentIndex = st.totalTasks
          omega
        · show st.pendingTasks = 0
          omega
      | topDrain st w h1 h2 =>
        have hT : st.running = true := (hact (by simp)).1
        have hr2 : st.running = false := hrun
        simp [hT] at hr2
      | drainWake st w =>
        have hT : st.running = true := (hact (by simp)).1
        have hr2 : st.running = false := hrun
        simp [hT] at hr2
      | topPaused st w h1 h2 =>
        have hT : st.running = true := (hact (by simp)).1
        have hr2 : st.running = false := hrun
        simp [hT] at hr2
      | topFull st w h1 h2 h3 =>
        have hT : st.running = true := (hact (by simp)).1
        have hr2 : st.running = false := hrun
        simp [hT] at hr2
      | topAdmit st w h1 h2 h3 =>
        have hT : st.running = true := (hact (by simp)).1
        have hr2 : st.running = false := hrun
        simp [hT] at hr2
      | submitLoad st st0 w =>
        have hT : st.running = true := (hact (by simp)).1
        have hr2 : st.running = false := hrun
        simp [hT] at hr2
      | submitWrite st st0 obs w =>
        have hT : st.running = true := (hact (by simp)).1
        have hr2 : (applyUpdate st (incrUpd obs)).running = false := hrun
        simp only [applyUpdate_running, incrUpd, Option.getD_none] at hr2
        simp [hT] at hr2
      | advLoad st st0 w =>
        have hT : st.running = true := (hact (by simp)).1
        have hr2 : st.running = false := hrun
        simp [hT] at hr2
      | advWrite st st0 upd w =>
        simp only [loopInv, midInv] at hloop
        obtain ⟨_, _, _, _, hur, _⟩ := hloop
        have hr2 : (advanceWrite st0 upd).running = false := hrun
        simp only [advanceWrite] at hr2
        simp [hur] at hr2
      | failLoadA st st0 w =>
        have hT : st.running = true := (hact (by simp)).1
        have hr2 : st.running = false := hrun
        simp [hT] at hr2
      | failWriteA st st0 obs w =>
        have hT : st.running = true := (hact (by simp)).1
        have hr2 : (applyUpdate st (taskCatchUpd obs)).running = false := hrun
        simp only [applyUpdate_running, taskCatchUpd, Option.getD_none] at hr2
        simp [hT] at hr2
      | failLoadB st st0 w =>
        have hT : st.running = true := (hact (by simp)).1
        have hr2 : st.running = false := hrun
        simp [hT] at hr2
      | failWriteB st st0 obs w =>
        simp only [loopInv, midInv] at hloop
        obtain ⟨_, _, _, _, hor, _⟩ := hloop
        have hr2 : (loopCatchWrite obs).running = false := hrun
        simp only [loopCatchWrite] at hr2
        simp [hor] at hr2
    · rintro ⟨hl, hidx, hpend⟩
      obtain ⟨st, lp, w⟩ := s
      have hl2 : lp = LoopPhase.top := hl
      subst hl2
      have hidx2 : st.currentIndex = st.totalTasks := hidx
      have hpend2 : st.pendingTasks = 0 := hpend
      refine ⟨⟨applyUpdate st stopUpd, .exited, w⟩,
        Step.topComplete st w (by omega) (by omega), ?_, ?_⟩
      · show (applyUpdate st stopUpd).running = false
        simp [stopUpd]
      · show (applyUpdate st stopUpd).paused = false
        simp [stopUpd]
  · intro hge hpos s' hstep
    cases hstep with
    | topComplete st w h1 h2 =>
      exfalso
      have hpos2 : (0 : Int) < st.pendingTasks := hpos
      omega
    | topDrain st w h1 h2 => rfl
    | drainWake st w => rfl
    | topPaused st w h1 h2 =>
      exfalso
      have hge2 : st.totalTasks ≤ st.currentIndex := hge
      omega
    | topFull st w h1 h2 h3 =>
      exfalso
      have hge2 : st.totalTasks ≤ st.currentIndex := hge
      omega
    | topAdmit st w h1 h2 h3 =>
      exfalso
      have hge2 : st.totalTasks ≤ st.currentIndex := hge
      omega
    | submitLoad st st0 w =>
      exfalso
      have hge2 : st.totalTasks ≤ st.currentIndex := hge
      simp only [loopInv, midInv] at hloop
      omega
    | submitWrite st st0 obs w =>
      exfalso
      have hge2 : st.totalTasks ≤ st.currentIndex := hge
      simp only [loopInv, midInv] at hloop
      omega
    | advLoad st st0 w =>
      exfalso
      have hge2 : st.totalTasks ≤ st.currentIndex := hge
      simp only [loopInv, midInv] at hloop
      omega
    | advWrite st st0 upd w =>
      exfalso
      have hge2 : st.totalTasks ≤ st.currentIndex := hge
      simp only [loopInv, midInv] at hloop
      omega
    | failLoadA st st0 w =>
      exfalso
      have hge2 : st.totalTasks ≤ st.currentIndex := hge
      simp only [loopInv, midInv] at hloop
      omega
    | failWriteA st st0 obs w =>
      exfalso
      have hge2 : st.totalTasks ≤ st.currentIndex := hge
      simp only [loopInv, midInv] at hloop
      omega
    | failLoadB st st0 w =>
      exfalso
      have hge2 : st.totalTasks ≤ st.currentIndex := hge
      simp only [loopInv, midInv] at hloop
      omega
    | failWriteB st st0 obs w =>
      exfalso
      have hge2 : st.totalTasks ≤ st.currentIndex := hge
      simp only [loopInv, midInv] at hloop
      omega


/-- Witness for C3: the zero-task run completes from its initial state. -/
theorem C3_completed_iff_drained_witness :
    ((∃ s' : Sys, Step (initSys (freshState 0 1 1)) Lbl.loopStep s' ∧
        s'.store.running = false ∧ s'.store.paused = false) ↔
      ((initSys (freshState 0 1 1)).loop = LoopPhase.top ∧
        (initSys (freshState 0 1 1)).store.currentIndex =
          (initSys (freshState 0 1 1)).store.totalTasks ∧
        (initSys (freshState 0 1 1)).store.pendingTasks = 0)) ∧
    ((initSys (freshState 0 1 1)).store.totalTasks ≤
        (initSys (freshState 0 1 1)).store.currentIndex →
      0 < (initSys (freshState 0 1 1)).store.pendingTasks →
      ∀ s' : Sys, Step (initSys (freshState 0 1 1)) Lbl.loopStep s' →
        s'.store = (initSys (freshState 0 1 1)).store) :=
  C3_completed_iff_drained 0 1 1 (initSys (freshState 0 1 1)) Relation.ReflTransGen.refl

/-
Sequential run of processQueue for Scenario D (claim C2): every
processTask call throws at the executor step (file request, upload, crop,
prompt or submit), before the pendingTasks increment and before any
completion watch is spawned, and no other writer interleaves.  One failing
iteration performs, in order: the catch of processTask (lines 489-502)
loads the state and merges a clamped pendingTasks decrement plus
failCount + 1, rethrows; the catch of processQueue (lines 370-391) loads
the state again and writes it back whole with failCount + 1 again and
currentIndex + 1.  Each submission failure therefore increments failCount
twice.
-/

/-- One failing submission: processTask catch merge followed by
processQueue catch write, sequentially composed. -/
def failedSubmission (s : QueueState) : QueueState :=
  loopCatchWrite (applyUpdate s (taskCatchUpd s))

/-- Fuel-bounded sequential execution of processQueue when every
submission fails at the executor step; none means the fuel ran out, some
is the state persisted when the loop exits through its completion branch
(lines 301-324). -/
def processQueueRunAllFail : Nat → QueueState → Option QueueState
  | 0, _ => none
  | fuel + 1, st =>
    if st.totalTasks ≤ st.currentIndex then
      if 0 < st.pendingTasks then processQueueRunAllFail fuel st
      else some (applyUpdate st stopUpd)
    else if st.paused = true then processQueueRunAllFail fuel st
    else if QUEUE_LIMIT ≤ st.pendingTasks then processQueueRunAllFail fuel st
    else processQueueRunAllFail fuel (failedSubmission st)

/-- C2, Scenario D evaluated on the code: a fresh run with totalTasks = 3
whose three submissions all fail at the executor step ends Completed with
currentIndex = 3, successCount = 0 and pendingTasks = 0 as the claim says,
but with failCount = 6, not 3: each failure is counted once by the catch
of processTask and once more by the catch of processQueue. -/
theorem C2_scenarioD_double_count :
    processQueueRunAllFail 10 (freshState 3 9 0) =
      some { totalTasks := 3, currentIndex := 3, running := false, paused := false,
             successCount := 0, failCount := 6, pendingTasks := 0,
             queueId := some 9, createdAt := 0 } ∧
    (6 : Nat) = 2 * (freshState 3 9 0).totalTasks ∧
    (6 : Nat) ≠ (freshState 3 9 0).totalTasks := by
  refine ⟨by decide, by decide, by decide⟩

/-
Start protocol (claim C4): popup.startQueue (popup.js lines 697-758)
builds a fresh QueueState carrying a fresh queueId, writes it whole
through saveState (chrome.storage.local.set, a whole-record overwrite),
then sends FLOW_BATCH_START; handleStartQueue (part_000 lines 118-216)
runs the forced-reset steps and persists the fresh run state.
-/

/-- In-memory scheduler state touched by start and clear. -/
structure StartMem where
  queueRunning : Bool
  currentQueueId : Option Nat
  currentTaskPointer : Nat
  deriving Repr, DecidableEq

/-- The metadata fields of start that the queue state depends on. -/
structure StartMeta where
  totalTasks : Nat
  deriving Repr, DecidableEq

/-- The forced overwrite of STEP 4 of handleStartQueue (lines 142-149):
running, paused, pendingTasks, currentIndex, successCount and failCount
all reset. -/
def fullResetUpd : QueueUpdate :=
  { running := some false, paused := some false, pendingTasks := some 0,
    currentIndex := some 0, successCount := some 0, failCount := some 0 }

/-- The fresh queue state object of STEP 8 (lines 189-202), passed whole
to updateQueueState; it carries no queueId field, so the merge keeps the
queueId already in the store. -/
def freshUpd (meta : StartMeta) (now : Nat) : QueueUpdate :=
  { totalTasks := some meta.totalTasks, currentIndex := some 0,
    running := some true, paused := some false, successCount := some 0,
    failCount := some 0, pendingTasks := some 0, createdAt := some now }

/-- The QueueState the popup persists before sending the start command
(popup.js lines 724-739), carrying the fresh queueId. -/
def popupStartState (meta : StartMeta) (qid now : Nat) : QueueState :=
  { totalTasks := meta.totalTasks, currentIndex := 0, running := true,
    paused := false, successCount := 0, failCount := 0, pendingTasks := 0,
    queueId := some qid, createdAt := now }

/-- handleStartQueue (part_000 lines 118-216) run without interleaving:
STEP 1 stops the memory flag, STEP 2 merges the stop update, STEP 3 is the
settle sleep, STEP 4 re-reads and forcibly overwrites if the store still
claims running, STEP 5 re-reads and force-stops again if running and not
paused, STEP 7 resets the cache id and pointer, STEP 8 raises the memory
flag and persists the fresh state. -/
def handleStartQueueRun (m : StartMem) (st : Store) (meta : StartMeta) (now : Nat) :
    StartMem × Store :=
  let m1 : StartMem := { m with queueRunning := false }
  let st2 := updateStore st stopUpd
  let st4 := match st2 with
    | none => st2
    | some s => if s.running then updateStore st2 fullResetUpd else st2
  let st5 := match st4 with
    | none => st4
    | some s => if s.running && !s.paused then updateStore st4 stopUpd else st4
  let m7 : StartMem := { m1 with currentQueueId := some now, currentTaskPointer := 0 }
  let m8 : StartMem := { m7 with queueRunning := true }
  (m8, updateStore st5 (freshUpd meta now))

/-- One whole start(metadata) call: the popup's whole-record write of the
fresh state replaces whatever was persisted (the previous store content is
taken and discarded), then handleStartQueue runs. -/
def startCall (m : StartMem) (_previous : Store) (meta : StartMeta) (qid now : Nat) :
    StartMem × Store :=
  handleStartQueueRun m (some (popupStartState meta qid now)) meta now

/-- C4, amended: every start call runs the forced-reset steps and ends
with the fresh QueueState persisted - currentIndex, pendingTasks,
successCount and failCount all zero, running true, paused false, the fresh
queueId written by the popup kept by every merge - and the in-memory
mirror reset with a fresh cache id.  The further consequence claimed, that
two consecutive starts can never leave two concurrently active submission
loops, is false: see the counterexample. -/
theorem C4_start_forced_reset (m : StartMem) (st : Store) (meta : StartMeta)
    (qid now : Nat) :
    (startCall m st meta qid now).2 = some (popupStartState meta qid now) ∧
    (startCall m st meta qid now).1.queueRunning = true ∧
    (startCall m st meta qid now).1.currentQueueId = some now ∧
    (startCall m st meta qid now).1.currentTaskPointer = 0 :=
  ⟨rfl, rfl, rfl, rfl⟩

/-- The admission pipeline one submission-loop iteration evaluates: the
while-guard reads the shared this.queueRunning flag (part_000 line 289),
then the iteration loads the store and submits the task at currentIndex
when the index is below the total, the run is not paused and pendingTasks
is under the limit (lines 291-358).  Both a previously spawned loop and a
newly spawned one evaluate this same shared state. -/
def submissionLoopNextIndex (qr : Bool) (st : Store) : Option Nat :=
  if qr then
    match st with
    | none => none
    | some s =>
      if s.currentIndex < s.totalTasks ∧ s.paused = false ∧
          s.pendingTasks < QUEUE_LIMIT then some s.currentIndex
      else none
  else none

/-- Memory state while the first run's loop is still alive. -/
def c4Mem : StartMem :=
  { queueRunning := true, currentQueueId := some 111, currentTaskPointer := 2 }

/-- Persisted state of the first run, draining: index 2 of 2, one task
still pending, its loop suspended in the 5000 ms draining sleep - longer
than the at most 1300 ms of settle delays inside the start protocol. -/
def c4OldStore : Store :=
  some { totalTasks := 2, currentIndex := 2, running := true, paused := false,
         successCount := 1, failCount := 0, pendingTasks := 1,
         queueId := some 111, createdAt := 50 }

/-- The system right after the second start() finishes. -/
def c4After : StartMem × Store := startCall c4Mem c4OldStore { totalTasks := 3 } 222 1000

/-- C4, counterexample: after the second start, the shared queueRunning
flag - the only stop signal the first, still-suspended loop will re-check
when its sleep ends - is true again, and the admission pipeline evaluated
on the shared state submits index 0; the freshly spawned second loop
evaluates exactly the same shared state, so both loops are concurrently
active and would both submit task 0.  The reset protocol does not stop a
loop whose await outlives the settle delays, because the stop flag it
cleared is set back to true by the same start call. -/
theorem C4_two_loops_counterexample :
    c4After.1.queueRunning = true ∧
    submissionLoopNextIndex c4After.1.queueRunning c4After.2 = some 0 := by
  refine ⟨by decide, by decide⟩

/-
Cold-start recovery (claim C5): initializeAutoResume, part_000 lines
2276-2335.
-/

/-- What the cold-start scheduler decides to do. -/
inductive ResumeAction where
  | idle
  | resume (fromIndex : Nat)
  | correctStore
  deriving Repr, DecidableEq

/-- The decision of initializeAutoResume: no state or a zero totalTasks
does nothing (line 2281); missing task metadata does nothing (line 2285);
a running, unpaused state resumes from the stored currentIndex when the
run is still active (lines 2290-2316) and otherwise corrects the store
(lines 2317-2326); a paused or stopped state is left idle (lines
2327-2331). -/
def autoResumeDecision (st : Store) (metaPresent : Bool) : ResumeAction :=
  match st with
  | none => .idle
  | some s =>
    if s.totalTasks = 0 then .idle
    else if !metaPresent then .idle
    else if s.running && !s.paused then
      if s.currentIndex < s.totalTasks ∨ 0 < s.pendingTasks then .resume s.currentIndex
      else .correctStore
    else .idle

/-- The store write initializeAutoResume performs: only the correction
branch writes (running, paused, pendingTasks reset); resuming writes
nothing, so queueId, currentIndex, successCount and failCount are kept. -/
def autoResumeStoreEffect (st : Store) (metaPresent : Bool) : Store :=
  match autoResumeDecision st metaPresent with
  | .correctStore => updateStore st stopUpd
  | _ => st

/-- A persisted state from claim P6 of the spec, with the task metadata
record missing. -/
def c5State : QueueState :=
  { totalTasks := 10, currentIndex := 3, running := true, paused := false,
    successCount := 1, failCount := 0, pendingTasks := 2, queueId := none,
    createdAt := 7 }

/-- C5, counterexample: a persisted state with running true, paused false
and currentIndex below totalTasks, but with the TaskMetadata record
missing, is NOT resumed - initializeAutoResume returns before reaching the
resume branch - although the claim promises a resume for every such
persisted state. -/
theorem C5_metadata_missing_counterexample :
    c5State.running = true ∧ c5State.paused = false ∧
    c5State.currentIndex < c5State.totalTasks ∧
    autoResumeDecision (some c5State) false = ResumeAction.idle ∧
    ResumeAction.idle ≠ ResumeAction.resume c5State.currentIndex := by
  refine ⟨by decide, by decide, by decide, by decide, by decide⟩

/-- What the amended C5 promises for a persisted state s read at cold
start. -/
def resumeSpec (s : QueueState) : Prop :=
  autoResumeDecision (some s) true = ResumeAction.resume s.currentIndex ∧
  autoResumeStoreEffect (some s) true = some s ∧
  autoResumeDecision none true = ResumeAction.idle ∧
  (∀ s0 : QueueState, s0.totalTasks = 0 →
    autoResumeDecision (some s0) true = ResumeAction.idle) ∧
  (∀ s0 : QueueState, s0.running = true → s0.paused = false →
    s0.totalTasks ≠ 0 → s0.totalTasks ≤ s0.currentIndex → s0.pendingTasks ≤ 0 →
    autoResumeDecision (some s0) true = ResumeAction.correctStore ∧
    autoResumeStoreEffect (some s0) true = some (applyUpdate s0 stopUpd)) ∧
  (∀ st : Sys, Reaches (initSys s) st → s.currentIndex ≤ st.store.currentIndex) ∧
  (∀ (st : Sys) (st0 : QueueState), Reaches (initSys s) st →
    st.loop = LoopPhase.working st0 → s.currentIndex ≤ st0.currentIndex)

/-- C5, amended: on cold start with BOTH records present - the QueueState
and the TaskMetadata with its promptList - an active interrupted run
(running, not paused, index below total or tasks pending) is resumed from
the stored currentIndex with no store write (so queueId, currentIndex,
successCount and failCount are untouched and the forced-reset protocol is
not run); absent state or zero totalTasks does nothing; an exhausted
running state is corrected to running = false; and the resumed loop never
works on an index below the stored currentIndex. -/
theorem C5_cold_start_resume (s : QueueState)
    (hrun : s.running = true) (hpau : s.paused = false)
    (hact : s.currentIndex < s.totalTasks ∨ 0 < s.pendingTasks)
    (hnz : s.totalTasks ≠ 0)
    (hb0 : 0 ≤ s.pendingTasks) (hbL : s.pendingTasks ≤ QUEUE_LIMIT)
    (hil : s.currentIndex ≤ s.totalTasks) :
    resumeSpec s := by
  have h0 : Inv (initSys s) :=
    inv_initSys s ⟨hb0, hbL, hil⟩ ⟨hrun, hpau⟩
  refine ⟨?_, ?_, rfl, ?_, ?_, ?_, ?_⟩
  · simp [autoResumeDecision, hrun, hpau, hnz, hact]
  · rw [autoResumeStoreEffect]
    simp [autoResumeDecision, hrun, hpau, hnz, hact]
  · intro s0 hz
    simp [autoResumeDecision, hz]
  · intro s0 h1 h2 h3 h4 h5
    have hdec : autoResumeDecision (some s0) true = ResumeAction.correctStore := by
      have hna : ¬(s0.currentIndex < s0.totalTasks ∨ 0 < s0.pendingTasks) := by
        push_neg
        exact ⟨by omega, h5⟩
      simp [autoResumeDecision, h1, h2, h3, hna]
    refine ⟨hdec, ?_⟩
    rw [autoResumeStoreEffect, hdec]
    rfl
  · intro st hr
    exact reaches_idx_le h0 hr
  · intro st st0 hr hlw
    have hiSt := inv_reaches h0 hr
    have hmono : s.currentIndex ≤ st.store.currentIndex := reaches_idx_le h0 hr
    have hlp := hiSt.lp
    rw [hlw] at hlp
    simp only [loopInv, midInv] at hlp
    obtain ⟨⟨hi, _, _⟩, _⟩ := hlp
    omega

/-- Witness for C5: the interrupted run of property P6 of the spec
(running, index 3 of 10, two tasks pending) resumes from index 3. -/
theorem C5_cold_start_resume_witness :
    (c5State.running = true ∧ c5State.paused = false ∧
      (c5State.currentIndex < c5State.totalTasks ∨ 0 < c5State.pendingTasks) ∧
      c5State.totalTasks ≠ 0 ∧ 0 ≤ c5State.pendingTasks ∧
      c5State.pendingTasks ≤ QUEUE_LIMIT ∧
      c5State.currentIndex ≤ c5State.totalTasks) ∧
    resumeSpec c5State :=
  ⟨⟨by decide, by decide, by decide, by decide, by decide, by decide, by decide⟩,
    C5_cold_start_resume c5State (by decide) (by decide) (by decide) (by decide)
      (by decide) (by decide) (by decide)⟩

/-
Clear and the stale completion watch (claims C8 and C9).

handleClearQueue (part_000 lines 225-233) stops the memory flag, clears
the per-run file cache and cache id, and removes both persisted records.
A completion watch that later reaches its terminal outcome is
waitForTaskCompletion (lines 1785-1873, the later and therefore operative
of the two definitions of that method in the class body): it guards its
terminal write only by the PRESENCE of a loaded state, never by comparing
any run identity.
-/

/-- handleClearQueue: memory reset, queue state removed, task metadata
removed (the Bool is the presence of the metadata record). -/
def handleClearQueueRun (_ : StartMem) : StartMem × Store × Bool :=
  ({ queueRunning := false, currentQueueId := none, currentTaskPointer := 0 },
    none, false)

/-- Terminal outcome of one completion watch: the generation wait failed,
or it succeeded and the download dispatch succeeded or failed. -/
inductive WatchOutcome where
  | genFailed
  | genOkDownloadOk
  | genOkDownloadFailed
  deriving Repr, DecidableEq

/-- waitForTaskCompletion at its terminal outcome (part_000 lines
1785-1873).  A download dispatch failure is caught inside (lines
1799-1805) and the success path continues; the success update is the
merge of lines 1822-1825 followed by the verify re-read and conditional
re-write of lines 1827-1844 (a no-op when the merge landed); the failure
path is the catch merge of lines 1862-1868.  An absent state skips every
write. -/
def waitForTaskCompletionRun (o : WatchOutcome) (st : Store) : Store :=
  match o with
  | .genFailed =>
    match st with
    | none => st
    | some s => updateStore st (watchErrUpd s)
  | .genOkDownloadOk | .genOkDownloadFailed =>
    match st with
    | none => st
    | some s =>
      let st1 := updateStore st (watchOkUpd s)
      match st1 with
      | none => st1
      | some s1 =>
        if s1.successCount ≠ s.successCount + 1 then
          updateStore st1 { successCount := some (s.successCount + 1) }
        else st1

/-- The state of a newer run, already started when a watch of the cleared
previous run reaches its terminal outcome. -/
def c8NewRun : QueueState :=
  { totalTasks := 5, currentIndex := 1, running := true, paused := false,
    successCount := 0, failCount := 0, pendingTasks := 1, queueId := some 999,
    createdAt := 2000 }

/-- C8, counterexample: a stale watch of a superseded run that reaches its
terminal outcome after a NEWER run has started does modify the newer run's
state - its successCount is bumped and its pendingTasks slot stolen -
because the terminal write checks only that a state is present, not that
any run identity matches; the watch carries no queueId at all. -/
theorem C8_stale_watch_counterexample :
    waitForTaskCompletionRun .genOkDownloadOk (some c8NewRun) ≠ some c8NewRun ∧
    waitForTaskCompletionRun .genOkDownloadOk (some c8NewRun) =
      some { c8NewRun with successCount := 1, pendingTasks := 0 } := by
  refine ⟨by decide, by decide⟩

/-- C8, amended: clear() removes both persisted records and stops the
memory flag, and any watch reaching a terminal outcome while the store is
still absent performs no write - the store stays absent, so counts are not
resurrected.  The protection ends there: it rests on the presence check
alone, not on a run-identity match, so a stale watch that fires after a
newer run begins corrupts the newer run (see the counterexample). -/
theorem C8_clear_no_resurrection (m : StartMem) (o : WatchOutcome) :
    (handleClearQueueRun m).2.1 = none ∧
    (handleClearQueueRun m).2.2 = false ∧
    (handleClearQueueRun m).1.queueRunning = false ∧
    waitForTaskCompletionRun o none = none := by
  refine ⟨rfl, rfl, rfl, ?_⟩
  cases o <;> rfl

/-- C9: if the generation wait confirms the artifact but the download
dispatch fails, the watch still counts the task as successful: its
terminal write is identical to the fully successful case - successCount
plus one, clamped pendingTasks decrement, failCount untouched - unlike the
generation-failure case, which increments failCount instead. -/
theorem C9_download_failure_counts_success (s : QueueState) :
    waitForTaskCompletionRun .genOkDownloadFailed (some s) =
      waitForTaskCompletionRun .genOkDownloadOk (some s) ∧
    waitForTaskCompletionRun .genOkDownloadFailed (some s) =
      some (applyUpdate s (watchOkUpd s)) ∧
    (applyUpdate s (watchOkUpd s)).successCount = s.successCount + 1 ∧
    (applyUpdate s (watchOkUpd s)).pendingTasks = max 0 (s.pendingTasks - 1) ∧
    (applyUpdate s (watchOkUpd s)).failCount = s.failCount ∧
    waitForTaskCompletionRun .genFailed (some s) =
      some (applyUpdate s (watchErrUpd s)) ∧
    (applyUpdate s (watchErrUpd s)).failCount = s.failCount + 1 := by
  refine ⟨rfl, ?_, by simp [watchOkUpd], by simp [watchOkUpd], by simp [watchOkUpd],
    rfl, by simp [watchErrUpd]⟩
  simp [waitForTaskCompletionRun, updateStore, watchOkUpd]

end FlowBatch
